import Mathlib

/-!
Verification of the pyomo excerpt: the appsi persistent-solver test suite
(`pyomo/contrib/appsi/solvers/tests/test_persistent_solvers.py`) and the
kernel ctype registration module (`pyomo/kernel/__init__.py`).

The solver implementations exercised by the tests are external to the
excerpt, so the solver contract (`solve`, `get_duals`, `get_reduced_costs`,
`load_vars`, configuration toggles) is modelled from the specification,
while the optimization models themselves are embedded from the test source
and the asserted closed-form solutions are proved genuinely optimal over ℚ.
-/

namespace Appsi

/-- Modelled from the spec: the appsi `TerminationCondition` enumeration
(the implementing module `pyomo.contrib.appsi.base` is not in the excerpt).
The spec and the tests mention optimal, infeasible, unbounded and
infeasibleOrUnbounded outcomes, plus an unknown default. -/
inductive TerminationCondition where
  | unknown
  | optimal
  | infeasible
  | unbounded
  | infeasibleOrUnbounded
  deriving DecidableEq, Repr

/-- Modelled from the spec: the appsi `Results` object, carrying
`termination_condition`, `best_feasible_objective` and
`best_objective_bound` (spec section 6). Objective values are `Option ℚ`
because a solve without an objective, or without a feasible point,
reports `None`. -/
structure Results where
  termination_condition : TerminationCondition
  best_feasible_objective : Option ℚ
  best_objective_bound : Option ℚ
  deriving DecidableEq, Repr

/-- Modelled from the spec: the solver `config` options object with its
boolean `load_solution` toggle (spec section 6); `True` by default, as the
tests only ever set it to `False` explicitly. -/
structure Config where
  load_solution : Bool
  deriving DecidableEq, Repr

/-- The default configuration: `load_solution` is `True`. -/
def defaultConfig : Config := { load_solution := true }

/-!
## The two-line lower-envelope LP

Most tests in the file build the same small model: minimize `y` subject to
two constraints forcing `y` above (or onto) the lines `a1*x + b1` and
`a2*x + b2`.  We embed the feasible regions from the test source and prove
the closed-form optimum used in the assertions.
-/

/-- The point `x* = (b2 - b1) / (a1 - a2)` asserted by the tests as the
optimal (or unique feasible) `x`. -/
def xstar (a1 a2 b1 b2 : ℚ) : ℚ := (b2 - b1) / (a1 - a2)

/-- The point `y* = a1 * x* + b1` asserted by the tests as the optimal
(or unique feasible) `y`. -/
def ystar (a1 a2 b1 b2 : ℚ) : ℚ := a1 * xstar a1 a2 b1 b2 + b1

/-- Feasibility for the inequality form used by `test_param_changes`:
`c1 : 0 <= y - a1*x - b1` and `c2 : -y + a2*x + b2 <= 0`, i.e. `y` lies
above both lines. -/
def feasTwoLine (a1 a2 b1 b2 x y : ℚ) : Prop :=
  a1 * x + b1 ≤ y ∧ a2 * x + b2 ≤ y

/-- Feasibility for the equality form used by `test_equality`:
`c1 : y == a1*x + b1` and `c2 : y == a2*x + b2`. -/
def feasEquality (a1 a2 b1 b2 x y : ℚ) : Prop :=
  y = a1 * x + b1 ∧ y = a2 * x + b2

/-- Modelled from the spec: `PersistentSolver.solve` on the equality
two-line model of `test_equality` (the solver implementation is absent
from the excerpt).  It returns an optimal `Results` and the loaded primal
point asserted by the test. -/
def solve_equality (a1 a2 b1 b2 : ℚ) : Results × ℚ × ℚ :=
  ({ termination_condition := TerminationCondition.optimal
   , best_feasible_objective := some (ystar a1 a2 b1 b2)
   , best_objective_bound := some (ystar a1 a2 b1 b2) },
   xstar a1 a2 b1 b2, ystar a1 a2 b1 b2)

/-- Modelled from the spec: `get_duals` of the persistent solver on the
symmetric problem of `test_duals` (minimize `y` subject to `y - x >= 0`
and `y + x - 2 >= 0`); the implementation is absent from the excerpt, so
it is modelled as returning the dual values the test asserts. -/
def get_duals_symmetric : ℚ × ℚ := (1/2, 1/2)

/-- Modelled from the spec: `get_duals` on the parameterized two-line
problem of `test_param_changes`; returns the values the test asserts for
`c1` and `c2`. -/
def get_duals_param (a1 a2 : ℚ) : ℚ × ℚ :=
  (1 + a1 / (a2 - a1), a1 / (a2 - a1))

/-- Feasibility for the box problem of `test_reduced_costs`:
variable bounds `lx <= x <= ux` and `ly <= y <= uy`. -/
def feasBox (lx ux ly uy x y : ℚ) : Prop :=
  lx ≤ x ∧ x ≤ ux ∧ ly ≤ y ∧ y ≤ uy

/-- Modelled from the spec: `get_reduced_costs` on the box problem of
`test_reduced_costs` (minimize `3*x + 4*y`, `x` in `[-1, 1]`, `y` in
`[-2, 2]`); the implementation is absent from the excerpt, so it returns
the values the test asserts. -/
def get_reduced_costs_box : ℚ × ℚ := (3, 4)

/-- Modelled from the spec: `get_reduced_costs` for `x` on the
single-variable problem of `test_reduced_costs2` with objective minimize
`x`, `x` in `[l, u]`. -/
def get_reduced_costs_single_min : ℚ := 1

/-- Modelled from the spec: `get_reduced_costs` for `x` on the
single-variable problem of `test_reduced_costs2` with objective maximize
`x`, `x` in `[l, u]`. -/
def get_reduced_costs_single_max : ℚ := 1

/-- The mutable-parameter state of the two-line model built by
`test_param_changes`: the current values of `a1`, `a2`, `b1`, `b2`. -/
structure TwoLineState where
  a1 : ℚ
  a2 : ℚ
  b1 : ℚ
  b2 : ℚ
  deriving DecidableEq, Repr

/-- What one solver invocation reports: the `Results` object, the primal
values loaded into the model, and the duals of `c1` and `c2`. -/
structure SolveOutput where
  results : Results
  xval : ℚ
  yval : ℚ
  duals : ℚ × ℚ
  deriving DecidableEq, Repr

/-- Assigning values to the four mutable parameters (the test writes
`m.a1.value = a1` and so on), overwriting the previous values. -/
def set_params (_ : TwoLineState) (p : ℚ × ℚ × ℚ × ℚ) : TwoLineState :=
  ⟨p.1, p.2.1, p.2.2.1, p.2.2.2⟩

/-- The state of a freshly built model with parameter values `p`. -/
def freshState (p : ℚ × ℚ × ℚ × ℚ) : TwoLineState :=
  ⟨p.1, p.2.1, p.2.2.1, p.2.2.2⟩

/-- Modelled from the spec: `PersistentSolver.solve` on the two-line
model of `test_param_changes` (the incremental-update engine is absent
from the excerpt); the spec requires that re-solving uses the current
parameter values, so the output is computed from the state's values. -/
def solve_twoline (s : TwoLineState) : SolveOutput :=
  { results :=
      { termination_condition := TerminationCondition.optimal
      , best_feasible_objective := some (ystar s.a1 s.a2 s.b1 s.b2)
      , best_objective_bound := some (ystar s.a1 s.a2 s.b1 s.b2) }
  , xval := xstar s.a1 s.a2 s.b1 s.b2
  , yval := ystar s.a1 s.a2 s.b1 s.b2
  , duals := get_duals_param s.a1 s.a2 }

/-- Running a sequence of parameter assignments on the persistent solver,
solving after each mutation, and collecting the outputs. -/
def run_params : TwoLineState → List (ℚ × ℚ × ℚ × ℚ) → List SolveOutput
  | _, [] => []
  | s, p :: rest =>
    let s' := set_params s p
    solve_twoline s' :: run_params s' rest

/-!
## Solve wrapper, infeasible outcomes and `load_vars`
-/

/-- Modelled from the spec: the raw outcome reported by the external
solver backend before the wrapper post-processes it — a termination
condition, the objective value and bound when available, and a primal
solution (as variable-id/value pairs) when one was found. -/
structure RawResult where
  tc : TerminationCondition
  best_obj : Option ℚ
  bound : Option ℚ
  sol : Option (List (ℕ × ℚ))
  deriving Repr

/-- Writing a loaded primal solution into the model: every variable in the
solution list gets its value, the others keep what they had. -/
def load_into (m : ℕ → Option ℚ) (sol : List (ℕ × ℚ)) : ℕ → Option ℚ :=
  fun v =>
    match List.lookup v sol with
    | some q => some q
    | none => m v

/-- Modelled from the spec: (section 7) the `solve` wrapper around the
external backend.  With `load_solution` set (the default) a non-optimal
termination raises an exception; with `load_solution=False` the `Results`
object is returned as reported and no values are written into the model. -/
def solve_wrapper (cfg : Config) (m : ℕ → Option ℚ) (raw : RawResult) :
    Except String (Results × (ℕ → Option ℚ)) :=
  if cfg.load_solution then
    match raw.tc, raw.sol with
    | TerminationCondition.optimal, some sol =>
        Except.ok (⟨TerminationCondition.optimal, raw.best_obj, raw.bound⟩,
          load_into m sol)
    | _, _ => Except.error ("solver did not find an optimal solution")
  else
    Except.ok (⟨raw.tc, raw.best_obj, raw.bound⟩, m)

/-- The non-optimal termination conditions an infeasible (or unbounded)
model may produce, per the test's acceptable set. -/
def badTermination (tc : TerminationCondition) : Prop :=
  tc = TerminationCondition.infeasible ∨ tc = TerminationCondition.unbounded
    ∨ tc = TerminationCondition.infeasibleOrUnbounded

instance (tc : TerminationCondition) : Decidable (badTermination tc) := by
  unfold badTermination; infer_instance

/-- The model of `test_results_infeasible`: `c1 : y >= x` and
`c2 : y <= x - 1`. -/
def feasInfeasibleModel (x y : ℚ) : Prop := x ≤ y ∧ y ≤ x - 1

/-- The variable-tracking state of a persistent solver: the variables
currently part of the solver state and the primal solution values it
holds for them. -/
structure SolverVars where
  vars : List ℕ
  primal : ℕ → ℚ

/-- Modelled from the spec: `remove_variables` drops the given variables
from the solver state. -/
def remove_variables (s : SolverVars) (vs : List ℕ) : SolverVars :=
  { vars := s.vars.filter (fun v => decide (v ∉ vs)), primal := s.primal }

/-- Modelled from the spec: (sections 6 and 7) `load_vars` returns the
solution values of the requested variables (all variables of the solver
state when called without arguments) and raises when a requested variable
is not part of the current solver state. -/
def load_vars (s : SolverVars) (toLoad : Option (List ℕ)) :
    Except String (List (ℕ × ℚ)) :=
  match toLoad with
  | none => Except.ok (s.vars.map (fun v => (v, s.primal v)))
  | some l =>
    if l.all (fun v => decide (v ∈ s.vars)) then
      Except.ok (l.map (fun v => (v, s.primal v)))
    else
      Except.error ("a variable is not part of the solver state")

/-- Modelled from the spec: (section 6) `get_duals(cons_to_load=None)`
returns a constraint-to-float mapping; when a list is passed only those
constraints are loaded, otherwise all constraints of the model are. -/
def load_duals (allCons : List ℕ) (full : ℕ → ℚ) (toLoad : Option (List ℕ)) :
    List (ℕ × ℚ) :=
  match toLoad with
  | none => allCons.map (fun c => (c, full c))
  | some l => l.map (fun c => (c, full c))

/-- Modelled from the spec: `solve` on the model of `test_no_objective`
(the two equality constraints, no objective): optimal termination, the
feasible point loaded, no objective value or bound, zero duals. -/
def solve_no_objective (a1 a2 b1 b2 : ℚ) : SolveOutput :=
  { results := ⟨TerminationCondition.optimal, none, none⟩
  , xval := xstar a1 a2 b1 b2
  , yval := ystar a1 a2 b1 b2
  , duals := (0, 0) }

/-!
## Constraint lists for `test_add_remove_cons`
-/

/-- A constraint of the form `y >= a*x + b` from `test_add_remove_cons`
(as written there its body is `a*x + b - y` with upper level `0`),
stored as slope and intercept. -/
structure Line where
  a : ℚ
  b : ℚ
  deriving DecidableEq, Repr

/-- A point satisfies a list of such constraints when it lies above every
line. -/
def feasLines (ls : List Line) (x y : ℚ) : Prop :=
  ∀ l ∈ ls, l.a * x + l.b ≤ y

/-- Boolean feasibility check used by the modelled solver. -/
def feasLinesB (ls : List Line) (p : ℚ × ℚ) : Bool :=
  ls.all (fun l => decide (l.a * p.1 + l.b ≤ p.2))

/-- The intersection point of two constraint lines. -/
def vertex (l m : Line) : ℚ × ℚ :=
  (xstar l.a m.a l.b m.b, ystar l.a m.a l.b m.b)

/-- All pairwise intersection points of the constraint lines. -/
def candidates (ls : List Line) : List (ℚ × ℚ) :=
  (ls.flatMap (fun l => ls.map (fun m => (l, m)))).filterMap
    (fun lm => if lm.1.a = lm.2.a then none else some (vertex lm.1 lm.2))

/-- The candidate with smallest `y`. -/
def argminY : List (ℚ × ℚ) → Option (ℚ × ℚ)
  | [] => none
  | p :: rest =>
    match argminY rest with
    | none => some p
    | some q => if p.2 ≤ q.2 then some p else some q

/-- Modelled from the spec: `solve` for minimizing `y` over a list of
`y >= a*x + b` constraints (the solver implementation is absent from the
excerpt): the feasible vertex of smallest `y`. -/
def solveLineList (ls : List Line) : Option (ℚ × ℚ) :=
  argminY ((candidates ls).filter (fun p => feasLinesB ls p))

/-- Modelled from the spec: adding a constraint to the persistent solver
(`m.c3 = pe.Constraint(...)` followed by the update) appends it. -/
def add_constraint (ls : List Line) (c : Line) : List Line := ls ++ [c]

/-- Modelled from the spec: deleting a constraint (`del m.c3`) removes it
from the solver state. -/
def remove_constraint (ls : List Line) (c : Line) : List Line := ls.erase c

/-- The dual of constraint `l` when it is active at the optimum together
with constraint `m`. -/
def dual_at (l m : Line) : ℚ := m.a / (l.a - m.a)

/-- The constraints active (tight) at a point. -/
def activeAt (ls : List Line) (p : ℚ × ℚ) : List Line :=
  ls.filter (fun l => decide (l.a * p.1 + l.b = p.2))

/-- Modelled from the spec: `get_duals` for the constraint-list model —
an inactive constraint has dual `0`, and when exactly two constraints are
active at the optimum each gets its pairwise dual. -/
def get_duals_lines (ls : List Line) (c : Line) : ℚ :=
  match solveLineList ls with
  | none => 0
  | some p =>
    match activeAt ls p with
    | [l, m] => if c = l then dual_at l m else if c = m then dual_at m l else 0
    | _ => 0

/-- Constraint `m.c1 : y >= -x + 1` of `test_add_remove_cons` (`a1 = -1`, `b1 = 1`). -/
def lineC1 : Line := ⟨-1, 1⟩

/-- Constraint `m.c2 : y >= x + 2` of `test_add_remove_cons` (`a2 = 1`, `b2 = 2`). -/
def lineC2 : Line := ⟨1, 2⟩

/-- Constraint `m.c3 : y >= x + 3` of `test_add_remove_cons` (`a3 = 1`, `b3 = 3`). -/
def lineC3 : Line := ⟨1, 3⟩

/-- The initial constraint state of `test_add_remove_cons`. -/
def modelC8 : List Line := [lineC1, lineC2]

/-!
## The kernel ctype registration module

`pyomo/kernel/__init__.py` is in the excerpt, so it is embedded directly:
each of its statements assigns the `_ctype` attribute of one kernel
component wrapper type to a canonical heavyweight class.
-/

/-- The kernel component wrapper types whose attributes the module sets
(`variable'` stands for the source name `variable`, a Lean keyword, and
`matrixConstraintData` for `_MatrixConstraintData`). -/
inductive KernelType where
  | block | block_tuple | block_list | block_dict | tiny_block
  | variable' | variable_tuple | variable_list | variable_dict
  | constraint | linear_constraint | constraint_tuple | constraint_list
  | constraint_dict | matrixConstraintData | matrix_constraint
  | parameter | parameter_tuple | parameter_list | parameter_dict
  | expression | data_expression | expression_tuple | expression_list
  | expression_dict
  | objective | objective_tuple | objective_list | objective_dict
  | sos | sos_tuple | sos_list | sos_dict
  | suffix
  deriving DecidableEq, Repr, Fintype

/-- The canonical heavyweight component classes imported from
`pyomo.core.base`. -/
inductive CType where
  | Block | Var | Constraint | Param | Expression | Objective
  | SOSConstraint | Suffix
  deriving DecidableEq, Repr

/-- One attribute-assignment statement of the module: `target.attr = value`. -/
structure AttrAssign where
  target : KernelType
  attr : String
  value : CType
  deriving DecidableEq, Repr

/-- The attribute-assignment statements of `pyomo/kernel/__init__.py`
(lines 16–80), in source order.  The module's only other statements are
imports and `del`s of the imported class names, which modify no attribute
of the kernel types. -/
def kernel_init_statements : List AttrAssign :=
  [ ⟨.block, "_ctype", .Block⟩, ⟨.block_tuple, "_ctype", .Block⟩
  , ⟨.block_list, "_ctype", .Block⟩, ⟨.block_dict, "_ctype", .Block⟩
  , ⟨.tiny_block, "_ctype", .Block⟩
  , ⟨.variable', "_ctype", .Var⟩, ⟨.variable_tuple, "_ctype", .Var⟩
  , ⟨.variable_list, "_ctype", .Var⟩, ⟨.variable_dict, "_ctype", .Var⟩
  , ⟨.constraint, "_ctype", .Constraint⟩
  , ⟨.linear_constraint, "_ctype", .Constraint⟩
  , ⟨.constraint_tuple, "_ctype", .Constraint⟩
  , ⟨.constraint_list, "_ctype", .Constraint⟩
  , ⟨.constraint_dict, "_ctype", .Constraint⟩
  , ⟨.matrixConstraintData, "_ctype", .Constraint⟩
  , ⟨.matrix_constraint, "_ctype", .Constraint⟩
  , ⟨.parameter, "_ctype", .Param⟩, ⟨.parameter_tuple, "_ctype", .Param⟩
  , ⟨.parameter_list, "_ctype", .Param⟩, ⟨.parameter_dict, "_ctype", .Param⟩
  , ⟨.expression, "_ctype", .Expression⟩
  , ⟨.data_expression, "_ctype", .Expression⟩
  , ⟨.expression_tuple, "_ctype", .Expression⟩
  , ⟨.expression_list, "_ctype", .Expression⟩
  , ⟨.expression_dict, "_ctype", .Expression⟩
  , ⟨.objective, "_ctype", .Objective⟩, ⟨.objective_tuple, "_ctype", .Objective⟩
  , ⟨.objective_list, "_ctype", .Objective⟩, ⟨.objective_dict, "_ctype", .Objective⟩
  , ⟨.sos, "_ctype", .SOSConstraint⟩, ⟨.sos_tuple, "_ctype", .SOSConstraint⟩
  , ⟨.sos_list, "_ctype", .SOSConstraint⟩, ⟨.sos_dict, "_ctype", .SOSConstraint⟩
  , ⟨.suffix, "_ctype", .Suffix⟩ ]

/-- The `_ctype` attribute of a kernel type after the module has run: the
value of the last `_ctype` assignment targeting it, if any. -/
def final_ctype (t : KernelType) : Option CType :=
  ((kernel_init_statements.filter
      (fun s => decide (s.target = t ∧ s.attr = "_ctype"))).getLast?).map
    AttrAssign.value

/-- The mapping as the claim states it (written from the spec's words, to
be compared with the embedding of the module): each family of wrapper
types goes to its canonical heavyweight class. -/
def spec_ctype (t : KernelType) : CType :=
  match t with
  | .block | .block_tuple | .block_list | .block_dict | .tiny_block => .Block
  | .variable' | .variable_tuple | .variable_list | .variable_dict => .Var
  | .constraint | .linear_constraint | .constraint_tuple | .constraint_list
  | .constraint_dict | .matrixConstraintData | .matrix_constraint => .Constraint
  | .parameter | .parameter_tuple | .parameter_list | .parameter_dict => .Param
  | .expression | .data_expression | .expression_tuple | .expression_list
  | .expression_dict => .Expression
  | .objective | .objective_tuple | .objective_list | .objective_dict =>
      .Objective
  | .sos | .sos_tuple | .sos_list | .sos_dict => .SOSConstraint
  | .suffix => .Suffix

end Appsi

open Appsi

/-!
## Helper lemmas
-/

lemma ystar_on_second_line (a1 a2 b1 b2 : ℚ) (h : a1 ≠ a2) :
    ystar a1 a2 b1 b2 = a2 * xstar a1 a2 b1 b2 + b2 := by
  have hne : a1 - a2 ≠ 0 := sub_ne_zero.mpr h
  unfold ystar xstar
  field_simp
  ring

lemma feasTwoLine_star (a1 a2 b1 b2 : ℚ) (h : a1 ≠ a2) :
    feasTwoLine a1 a2 b1 b2 (xstar a1 a2 b1 b2) (ystar a1 a2 b1 b2) := by
  refine ⟨le_of_eq rfl, le_of_eq ?_⟩
  exact (ystar_on_second_line a1 a2 b1 b2 h).symm

/-- The key optimality fact: when `a2 < 0 < a1`, every point above both
lines has `y` at least `y*`. -/
lemma ystar_min (a1 a2 b1 b2 : ℚ) (h1 : 0 < a1) (h2 : a2 < 0)
    (x y : ℚ) (hf : feasTwoLine a1 a2 b1 b2 x y) :
    ystar a1 a2 b1 b2 ≤ y := by
  have hpos : 0 < a1 - a2 := by linarith
  have hne : a1 - a2 ≠ 0 := ne_of_gt hpos
  obtain ⟨hc1, hc2⟩ := hf
  have key : (a1 - a2) * ystar a1 a2 b1 b2 =
      (-a2) * (a1 * x + b1) + a1 * (a2 * x + b2) := by
    unfold ystar xstar
    field_simp
    ring
  have hb1 : (-a2) * (a1 * x + b1) ≤ (-a2) * y := by
    have : (0:ℚ) < -a2 := by linarith
    exact mul_le_mul_of_nonneg_left hc1 (le_of_lt this)
  have hb2 : a1 * (a2 * x + b2) ≤ a1 * y := by
    exact mul_le_mul_of_nonneg_left hc2 (le_of_lt h1)
  have : (a1 - a2) * ystar a1 a2 b1 b2 ≤ (a1 - a2) * y := by
    rw [key]; nlinarith
  exact le_of_mul_le_mul_left this hpos

/-- The equality-constrained feasible set is the single point `(x*, y*)`. -/
lemma feasEquality_iff (a1 a2 b1 b2 x y : ℚ) (h : a1 ≠ a2) :
    feasEquality a1 a2 b1 b2 x y ↔
      x = xstar a1 a2 b1 b2 ∧ y = ystar a1 a2 b1 b2 := by
  have hne : a1 - a2 ≠ 0 := sub_ne_zero.mpr h
  constructor
  · rintro ⟨hy1, hy2⟩
    have hx : x = xstar a1 a2 b1 b2 := by
      unfold xstar
      rw [eq_div_iff hne]
      nlinarith
    exact ⟨hx, by rw [hy1, hx]; rfl⟩
  · rintro ⟨hx, hy⟩
    subst hx hy
    exact ⟨rfl, ystar_on_second_line a1 a2 b1 b2 h⟩

/-- The perturbed optimal value is affine in the constraint-level
perturbations, with slopes `1 + a1/(a2 - a1)` and `a1/(a2 - a1)`:
perturbing the first line's intercept by `e1` and the second's by `-e2`. -/
lemma ystar_perturb (a1 a2 b1 b2 e1 e2 : ℚ) (h : a1 ≠ a2) :
    ystar a1 a2 (b1 + e1) (b2 - e2) =
      ystar a1 a2 b1 b2 + (1 + a1 / (a2 - a1)) * e1 + (a1 / (a2 - a1)) * e2 := by
  have hne : a1 - a2 ≠ 0 := sub_ne_zero.mpr h
  have hne' : a2 - a1 ≠ 0 := sub_ne_zero.mpr (Ne.symm h)
  unfold ystar xstar
  field_simp
  ring

lemma run_params_eq_map (ps : List (ℚ × ℚ × ℚ × ℚ)) :
    ∀ s : TwoLineState,
      run_params s ps = ps.map (fun p => solve_twoline (freshState p)) := by
  induction ps with
  | nil => intro s; rfl
  | cons p rest ih =>
    intro s
    simp only [run_params, List.map, List.cons.injEq]
    exact ⟨rfl, ih (set_params s p)⟩

/-- Looking up a key that is in the list, in an association list built by
pairing each element with its image, yields that image. -/
lemma lookup_map_pair {α : Type} [DecidableEq α] (f : α → ℚ) :
    ∀ (l : List α) (w : α), w ∈ l →
      List.lookup w (l.map (fun v => (v, f v))) = some (f w) := by
  intro l
  induction l with
  | nil => intro w hw; cases hw
  | cons a rest ih =>
    intro w hw
    by_cases h : w = a
    · subst h
      simp [List.lookup]
    · have hw' : w ∈ rest := by
        cases hw with
        | head => exact absurd rfl h
        | tail _ hmem => exact hmem
      have hba : (w == a) = false := beq_false_of_ne h
      simp [List.lookup, hba, ih w hw']

/-- Looking up a key that is not in the list yields nothing. -/
lemma lookup_map_pair_none {α : Type} [DecidableEq α] (f : α → ℚ) :
    ∀ (l : List α) (w : α), w ∉ l →
      List.lookup w (l.map (fun v => (v, f v))) = none := by
  intro l
  induction l with
  | nil => intro w _; rfl
  | cons a rest ih =>
    intro w hw
    have h : w ≠ a := fun hc => hw (hc ▸ List.mem_cons_self a rest)
    have hw' : w ∉ rest := fun hc => hw (List.mem_cons_of_mem a hc)
    have hba : (w == a) = false := beq_false_of_ne h
    simp [List.lookup, hba, ih w hw']

/-- C4: for every two-variable LP with equality constraints
`y == a1*x + b1` and `y == a2*x + b2` (`a1 ≠ a2`) and objective minimize
`y`, `solve` returns termination optimal and loads exactly the closed-form
solution `x = (b2 - b1)/(a1 - a2)`, `y = a1*x + b1`, which is the unique
feasible (hence optimal) point; `best_feasible_objective` equals the
loaded `y` and `best_objective_bound` is at most that `y`. -/
theorem C4_equality_closed_form (a1 a2 b1 b2 : ℚ) (h : a1 ≠ a2) :
    (solve_equality a1 a2 b1 b2).1.termination_condition =
        TerminationCondition.optimal
    ∧ (solve_equality a1 a2 b1 b2).2.1 = (b2 - b1) / (a1 - a2)
    ∧ (solve_equality a1 a2 b1 b2).2.2 =
        a1 * ((b2 - b1) / (a1 - a2)) + b1
    ∧ (∀ x y : ℚ, feasEquality a1 a2 b1 b2 x y ↔
        x = (solve_equality a1 a2 b1 b2).2.1 ∧
        y = (solve_equality a1 a2 b1 b2).2.2)
    ∧ (solve_equality a1 a2 b1 b2).1.best_feasible_objective =
        some (solve_equality a1 a2 b1 b2).2.2
    ∧ ∃ b : ℚ, (solve_equality a1 a2 b1 b2).1.best_objective_bound = some b
        ∧ b ≤ (solve_equality a1 a2 b1 b2).2.2 := by
  refine ⟨rfl, rfl, rfl, ?_, rfl, ystar a1 a2 b1 b2, rfl, le_refl _⟩
  intro x y
  exact feasEquality_iff a1 a2 b1 b2 x y h

/-- Witness for C4 at the first parameter tuple of the test,
`(a1, a2, b1, b2) = (1, -1, 2, 1)`. -/
theorem C4_equality_closed_form_witness :
    (1 : ℚ) ≠ -1 ∧
    ((solve_equality 1 (-1) 2 1).1.termination_condition =
        TerminationCondition.optimal
    ∧ (solve_equality 1 (-1) 2 1).2.1 = ((1:ℚ) - 2) / (1 - -1)
    ∧ (solve_equality 1 (-1) 2 1).2.2 =
        1 * (((1:ℚ) - 2) / (1 - -1)) + 2
    ∧ (∀ x y : ℚ, feasEquality 1 (-1) 2 1 x y ↔
        x = (solve_equality 1 (-1) 2 1).2.1 ∧
        y = (solve_equality 1 (-1) 2 1).2.2)
    ∧ (solve_equality 1 (-1) 2 1).1.best_feasible_objective =
        some (solve_equality 1 (-1) 2 1).2.2
    ∧ ∃ b : ℚ, (solve_equality 1 (-1) 2 1).1.best_objective_bound = some b
        ∧ b ≤ (solve_equality 1 (-1) 2 1).2.2) :=
  ⟨by decide, C4_equality_closed_form 1 (-1) 2 1 (by decide)⟩

/-- C5: `get_duals` after an optimal solve returns the analytic shadow
prices.  (a) On the symmetric problem (minimize `y` s.t. `y - x >= 0`,
`y + x - 2 >= 0`) the duals are `(0.5, 0.5)`: the optimal value is `1`,
and relaxing the constraint levels by `e1`, `e2` moves the optimal value
to exactly `1 + 0.5*e1 + 0.5*e2`.  (b) On the parameterized two-line
problem the duals of `c1` and `c2` are `1 + a1/(a2 - a1)` and
`a1/(a2 - a1)`: perturbing `c1`'s lower level by `e1` and `c2`'s upper
level by `e2` moves the optimal value by exactly `dual_c1 * e1 +
dual_c2 * e2`. -/
theorem C5_duals_are_shadow_prices (a1 a2 b1 b2 : ℚ)
    (h1 : 0 < a1) (h2 : a2 < 0) :
    (get_duals_symmetric = (1/2, 1/2)
      ∧ feasTwoLine 1 (-1) 0 2 1 1
      ∧ (∀ x y : ℚ, feasTwoLine 1 (-1) 0 2 x y → 1 ≤ y)
      ∧ (∀ e1 e2 : ℚ,
          (∀ x y : ℚ, feasTwoLine 1 (-1) e1 (2 + e2) x y →
            1 + get_duals_symmetric.1 * e1 + get_duals_symmetric.2 * e2 ≤ y)
          ∧ ∃ x y : ℚ, feasTwoLine 1 (-1) e1 (2 + e2) x y ∧
              y = 1 + get_duals_symmetric.1 * e1 + get_duals_symmetric.2 * e2))
    ∧ (get_duals_param a1 a2 = (1 + a1 / (a2 - a1), a1 / (a2 - a1))
      ∧ (∀ e1 e2 : ℚ,
          (∀ x y : ℚ, feasTwoLine a1 a2 (b1 + e1) (b2 - e2) x y →
            ystar a1 a2 b1 b2 + (get_duals_param a1 a2).1 * e1
              + (get_duals_param a1 a2).2 * e2 ≤ y)
          ∧ ∃ x y : ℚ, feasTwoLine a1 a2 (b1 + e1) (b2 - e2) x y ∧
              y = ystar a1 a2 b1 b2 + (get_duals_param a1 a2).1 * e1
                + (get_duals_param a1 a2).2 * e2)) := by
  have hne : a1 ≠ a2 := by intro hc; rw [hc] at h1; linarith
  have hsym : ∀ e1 e2 : ℚ, ystar 1 (-1) e1 (2 + e2) =
      1 + (1/2 : ℚ) * e1 + (1/2 : ℚ) * e2 := by
    intro e1 e2
    have h := ystar_perturb 1 (-1) 0 2 e1 (-e2) (by norm_num)
    simp only [sub_neg_eq_add, zero_add] at h
    rw [h]
    norm_num [ystar, xstar]
  constructor
  · refine ⟨rfl, ?_, ?_, ?_⟩
    · constructor <;> norm_num
    · intro x y hf
      have h := ystar_min 1 (-1) 0 2 (by norm_num) (by norm_num) x y hf
      have hy : ystar 1 (-1) 0 2 = 1 := by norm_num [ystar, xstar]
      linarith [h, hy ▸ h]
    · intro e1 e2
      constructor
      · intro x y hf
        have h := ystar_min 1 (-1) e1 (2 + e2) (by norm_num) (by norm_num) x y hf
        rw [hsym e1 e2] at h
        simpa [get_duals_symmetric] using h
      · refine ⟨xstar 1 (-1) e1 (2 + e2), ystar 1 (-1) e1 (2 + e2),
          feasTwoLine_star 1 (-1) e1 (2 + e2) (by norm_num), ?_⟩
        rw [hsym e1 e2]
        simp [get_duals_symmetric]
  · refine ⟨rfl, ?_⟩
    intro e1 e2
    have hval : ystar a1 a2 (b1 + e1) (b2 - e2) =
        ystar a1 a2 b1 b2 + (get_duals_param a1 a2).1 * e1
          + (get_duals_param a1 a2).2 * e2 := by
      rw [ystar_perturb a1 a2 b1 b2 e1 e2 hne]; rfl
    constructor
    · intro x y hf
      have h := ystar_min a1 a2 (b1 + e1) (b2 - e2) h1 h2 x y hf
      rw [hval] at h
      exact h
    · exact ⟨xstar a1 a2 (b1 + e1) (b2 - e2), ystar a1 a2 (b1 + e1) (b2 - e2),
        feasTwoLine_star a1 a2 (b1 + e1) (b2 - e2) hne, hval⟩

/-- Witness for C5 at the test's first parameter tuple
`(a1, a2, b1, b2) = (1, -1, 2, 1)`. -/
theorem C5_duals_are_shadow_prices_witness :
    (0 : ℚ) < 1 ∧ (-1 : ℚ) < 0 ∧
    ((get_duals_symmetric = (1/2, 1/2)
      ∧ feasTwoLine 1 (-1) 0 2 1 1
      ∧ (∀ x y : ℚ, feasTwoLine 1 (-1) 0 2 x y → 1 ≤ y)
      ∧ (∀ e1 e2 : ℚ,
          (∀ x y : ℚ, feasTwoLine 1 (-1) e1 (2 + e2) x y →
            1 + get_duals_symmetric.1 * e1 + get_duals_symmetric.2 * e2 ≤ y)
          ∧ ∃ x y : ℚ, feasTwoLine 1 (-1) e1 (2 + e2) x y ∧
              y = 1 + get_duals_symmetric.1 * e1 + get_duals_symmetric.2 * e2))
    ∧ (get_duals_param 1 (-1) = (1 + 1 / (-1 - 1), 1 / (-1 - 1))
      ∧ (∀ e1 e2 : ℚ,
          (∀ x y : ℚ, feasTwoLine 1 (-1) (2 + e1) (1 - e2) x y →
            ystar 1 (-1) 2 1 + (get_duals_param 1 (-1)).1 * e1
              + (get_duals_param 1 (-1)).2 * e2 ≤ y)
          ∧ ∃ x y : ℚ, feasTwoLine 1 (-1) (2 + e1) (1 - e2) x y ∧
              y = ystar 1 (-1) 2 1 + (get_duals_param 1 (-1)).1 * e1
                + (get_duals_param 1 (-1)).2 * e2))) :=
  ⟨by decide, by decide, C5_duals_are_shadow_prices 1 (-1) 2 1 (by decide) (by decide)⟩


/-- C6: reduced costs at a bound equal the objective coefficient.  On the
box problem (minimize `3*x + 4*y`, `x` in `[lx, ux]`, `y` in `[ly, uy]`)
the optimum sits at the lower bounds and the optimal value is exactly
`rc_x * lx + rc_y * ly` with `(rc_x, rc_y) = (3, 4)` the reported reduced
costs, so relaxing a bound by one unit moves the objective by the
coefficient.  On the single-variable problem over `[l, u]` the minimum is
`rc * l` and the maximum is `rc * u` with reported reduced cost `rc = 1`
in both senses. -/
theorem C6_reduced_costs (lx ux ly uy l u : ℚ)
    (hx : lx ≤ ux) (hy : ly ≤ uy) (hlu : l ≤ u) :
    (get_reduced_costs_box = (3, 4)
      ∧ feasBox lx ux ly uy lx ly
      ∧ (∀ x y : ℚ, feasBox lx ux ly uy x y →
          get_reduced_costs_box.1 * lx + get_reduced_costs_box.2 * ly ≤
            3 * x + 4 * y)
      ∧ 3 * lx + 4 * ly =
          get_reduced_costs_box.1 * lx + get_reduced_costs_box.2 * ly)
    ∧ (get_reduced_costs_single_min = 1
      ∧ get_reduced_costs_single_max = 1
      ∧ (l ≤ l ∧ l ≤ u) ∧ (l ≤ u ∧ u ≤ u)
      ∧ (∀ x : ℚ, l ≤ x → x ≤ u → get_reduced_costs_single_min * l ≤ x)
      ∧ (∀ x : ℚ, l ≤ x → x ≤ u → x ≤ get_reduced_costs_single_max * u)) := by
  refine ⟨⟨rfl, ⟨le_refl _, hx, le_refl _, hy⟩, ?_, by norm_num [get_reduced_costs_box]⟩,
    rfl, rfl, ⟨le_refl _, hlu⟩, ⟨hlu, le_refl _⟩, ?_, ?_⟩
  · rintro x y ⟨h1, _, h3, _⟩
    simp only [get_reduced_costs_box]
    nlinarith
  · intro x h1 _
    simpa [get_reduced_costs_single_min] using h1
  · intro x _ h2
    simpa [get_reduced_costs_single_max] using h2

/-- Witness for C6 at the bounds used by the tests: `x` in `[-1, 1]`,
`y` in `[-2, 2]` for the box problem and `x` in `[-1, 1]` for the
single-variable problem (optimal points `(-1, -2)` and `-1`/`1`). -/
theorem C6_reduced_costs_witness :
    (-1 : ℚ) ≤ 1 ∧ (-2 : ℚ) ≤ 2 ∧ (-1 : ℚ) ≤ 1 ∧
    ((get_reduced_costs_box = (3, 4)
      ∧ feasBox (-1) 1 (-2) 2 (-1) (-2)
      ∧ (∀ x y : ℚ, feasBox (-1) 1 (-2) 2 x y →
          get_reduced_costs_box.1 * (-1) + get_reduced_costs_box.2 * (-2) ≤
            3 * x + 4 * y)
      ∧ 3 * (-1) + 4 * (-2) =
          get_reduced_costs_box.1 * (-1) + get_reduced_costs_box.2 * (-2))
    ∧ (get_reduced_costs_single_min = 1
      ∧ get_reduced_costs_single_max = 1
      ∧ ((-1 : ℚ) ≤ -1 ∧ (-1 : ℚ) ≤ 1) ∧ ((-1 : ℚ) ≤ 1 ∧ (1 : ℚ) ≤ 1)
      ∧ (∀ x : ℚ, -1 ≤ x → x ≤ 1 → get_reduced_costs_single_min * (-1) ≤ x)
      ∧ (∀ x : ℚ, -1 ≤ x → x ≤ 1 → x ≤ get_reduced_costs_single_max * 1))) :=
  ⟨by decide, by decide, by decide,
    C6_reduced_costs (-1) 1 (-2) 2 (-1) 1 (by decide) (by decide) (by decide)⟩

/-- C7: on the persistent solver, after each assignment to the mutable
parameters, `solve` returns exactly what solving the freshly built model
with those values would return, and that output is genuinely optimal:
it loads `x = (b2 - b1)/(a1 - a2)` and `y = a1*x + b1`, that point is
feasible and minimizes `y`, `best_feasible_objective` equals the loaded
`y`, the bound is at most it, and the duals are the current-value
formulas. -/
theorem C7_param_changes (s : TwoLineState) (ps : List (ℚ × ℚ × ℚ × ℚ))
    (h : ∀ p ∈ ps, p.2.1 < 0 ∧ 0 < p.1) :
    run_params s ps = ps.map (fun p => solve_twoline (freshState p))
    ∧ ∀ p ∈ ps,
        (solve_twoline (freshState p)).xval =
            (p.2.2.2 - p.2.2.1) / (p.1 - p.2.1)
        ∧ (solve_twoline (freshState p)).yval =
            p.1 * ((p.2.2.2 - p.2.2.1) / (p.1 - p.2.1)) + p.2.2.1
        ∧ feasTwoLine p.1 p.2.1 p.2.2.1 p.2.2.2
            (solve_twoline (freshState p)).xval
            (solve_twoline (freshState p)).yval
        ∧ (∀ x y : ℚ, feasTwoLine p.1 p.2.1 p.2.2.1 p.2.2.2 x y →
            (solve_twoline (freshState p)).yval ≤ y)
        ∧ (solve_twoline (freshState p)).results.termination_condition =
            TerminationCondition.optimal
        ∧ (solve_twoline (freshState p)).results.best_feasible_objective =
            some (solve_twoline (freshState p)).yval
        ∧ (∃ b : ℚ,
            (solve_twoline (freshState p)).results.best_objective_bound =
              some b ∧ b ≤ (solve_twoline (freshState p)).yval)
        ∧ (solve_twoline (freshState p)).duals = get_duals_param p.1 p.2.1 := by
  constructor
  · exact run_params_eq_map ps s
  · intro p hp
    obtain ⟨h2, h1⟩ := h p hp
    have hne : p.1 ≠ p.2.1 := by intro hc; rw [hc] at h1; linarith
    refine ⟨rfl, rfl, ?_, ?_, rfl, rfl, ⟨ystar p.1 p.2.1 p.2.2.1 p.2.2.2, rfl, le_refl _⟩, rfl⟩
    · exact feasTwoLine_star p.1 p.2.1 p.2.2.1 p.2.2.2 hne
    · intro x y hf
      exact ystar_min p.1 p.2.1 p.2.2.1 p.2.2.2 h1 h2 x y hf

/-- Witness for C7 on the exact parameter sequence of
`test_param_changes`: `[(1, -1, 2, 1), (1, -2, 2, 1), (1, -1, 3, 1)]`. -/
theorem C7_param_changes_witness :
    (∀ p ∈ [((1 : ℚ), (-1 : ℚ), (2 : ℚ), (1 : ℚ)), (1, -2, 2, 1), (1, -1, 3, 1)],
        p.2.1 < 0 ∧ 0 < p.1)
    ∧ (run_params ⟨0, 0, 0, 0⟩
          [((1 : ℚ), (-1 : ℚ), (2 : ℚ), (1 : ℚ)), (1, -2, 2, 1), (1, -1, 3, 1)] =
        List.map (fun p => solve_twoline (freshState p))
          [((1 : ℚ), (-1 : ℚ), (2 : ℚ), (1 : ℚ)), (1, -2, 2, 1), (1, -1, 3, 1)]) :=
  ⟨by decide,
    (C7_param_changes ⟨0, 0, 0, 0⟩
      [((1 : ℚ), (-1 : ℚ), (2 : ℚ), (1 : ℚ)), (1, -2, 2, 1), (1, -1, 3, 1)]
      (by decide)).1⟩

/-- C1: the model of `test_results_infeasible` is infeasible; for every
backend outcome with a non-optimal (infeasible / unbounded /
infeasibleOrUnbounded) termination and no feasible objective, `solve`
under the default configuration raises, while with `load_solution=False`
it returns a `Results` whose termination condition is not optimal (it is
one of the three non-optimal conditions), leaves every model variable
value `None`, and reports `best_feasible_objective = None`. -/
theorem C1_infeasible_behavior (raw : RawResult) (m : ℕ → Option ℚ)
    (hbad : badTermination raw.tc) (hobj : raw.best_obj = none)
    (hm : ∀ v, m v = none) :
    (¬ ∃ x y : ℚ, feasInfeasibleModel x y)
    ∧ (∃ msg, solve_wrapper defaultConfig m raw = Except.error msg)
    ∧ (∃ r : Results,
        solve_wrapper ⟨false⟩ m raw = Except.ok (r, m)
        ∧ r.termination_condition ≠ TerminationCondition.optimal
        ∧ badTermination r.termination_condition
        ∧ r.best_feasible_objective = none
        ∧ (∀ v, m v = none)) := by
  obtain ⟨tc, obj, bnd, sol⟩ := raw
  have hb : tc = TerminationCondition.infeasible
      ∨ tc = TerminationCondition.unbounded
      ∨ tc = TerminationCondition.infeasibleOrUnbounded := hbad
  refine ⟨?_, ?_, ?_⟩
  · rintro ⟨x, y, hxy⟩
    have h1 : x ≤ y := hxy.1
    have h2 : y ≤ x - 1 := hxy.2
    linarith
  · rcases hb with h | h | h <;>
      (subst h; exact ⟨"solver did not find an optimal solution", rfl⟩)
  · refine ⟨⟨tc, obj, bnd⟩, rfl, ?_, hbad, hobj, hm⟩
    show tc ≠ TerminationCondition.optimal
    rcases hb with h | h | h <;> (subst h; intro hc; cases hc)

/-- Witness for C1: the backend reports `infeasible` with no objective
value and no solution, and the model has no values loaded. -/
theorem C1_infeasible_behavior_witness :
    badTermination (RawResult.mk TerminationCondition.infeasible none none none).tc
    ∧ (RawResult.mk TerminationCondition.infeasible none none none).best_obj = none
    ∧ (∀ v : ℕ, (fun _ : ℕ => (none : Option ℚ)) v = none)
    ∧ ((¬ ∃ x y : ℚ, feasInfeasibleModel x y)
      ∧ (∃ msg, solve_wrapper defaultConfig (fun _ => none)
          (RawResult.mk TerminationCondition.infeasible none none none) =
            Except.error msg)
      ∧ (∃ r : Results,
          solve_wrapper ⟨false⟩ (fun _ => none)
            (RawResult.mk TerminationCondition.infeasible none none none) =
              Except.ok (r, fun _ => none)
          ∧ r.termination_condition ≠ TerminationCondition.optimal
          ∧ badTermination r.termination_condition
          ∧ r.best_feasible_objective = none
          ∧ (∀ v : ℕ, (fun _ : ℕ => (none : Option ℚ)) v = none))) :=
  ⟨by decide, rfl, fun _ => rfl,
    C1_infeasible_behavior (RawResult.mk TerminationCondition.infeasible none none none)
      (fun _ => none) (by decide) rfl (fun _ => rfl)⟩

/-- C2: after removing a variable from the persistent solver state,
`load_vars` on a list containing that variable raises an exception, while
`load_vars()` without arguments succeeds, returning the remaining
variables paired with their solution values, and writing those pairs into
the model gives each remaining variable its solution value. -/
theorem C2_load_vars_removed_variable (s : SolverVars) (v : ℕ) :
    v ∉ (remove_variables s [v]).vars
    ∧ (∃ msg, load_vars (remove_variables s [v]) (some [v]) =
        Except.error msg)
    ∧ load_vars (remove_variables s [v]) none =
        Except.ok ((remove_variables s [v]).vars.map
          (fun w => (w, (remove_variables s [v]).primal w)))
    ∧ ∀ (mdl : ℕ → Option ℚ) (w : ℕ), w ∈ (remove_variables s [v]).vars →
        load_into mdl ((remove_variables s [v]).vars.map
          (fun u => (u, (remove_variables s [v]).primal u))) w =
            some ((remove_variables s [v]).primal w) := by
  have hv : v ∉ (remove_variables s [v]).vars := by
    intro hmem
    have h := (List.mem_filter.mp hmem).2
    simp at h
  refine ⟨hv, ?_, rfl, ?_⟩
  · have hall : (([v]).all
        (fun u => decide (u ∈ (remove_variables s [v]).vars))) = false := by
      simp [hv]
    exact ⟨"a variable is not part of the solver state",
      by simp [load_vars, hall]⟩
  · intro mdl w hw
    have hl := lookup_map_pair ((remove_variables s [v]).primal)
      (remove_variables s [v]).vars w hw
    simp [load_into, hl]

/-- C3: after the kernel init module runs, every kernel component wrapper
type's `_ctype` is the canonical heavyweight class of its family (it is
assigned exactly once), and every mutation the module performs is an
assignment of the `_ctype` attribute — no other attribute is modified. -/
theorem C3_kernel_ctype_registration :
    (∀ t : KernelType, final_ctype t = some (spec_ctype t))
    ∧ (∀ s ∈ kernel_init_statements, s.attr = "_ctype")
    ∧ (∀ t : KernelType,
        (kernel_init_statements.filter
          (fun s => decide (s.target = t))).length = 1) := by
  refine ⟨?_, ?_, ?_⟩ <;> decide

/-- C9: after an optimal solve, `get_duals(cons_to_load=L)` returns a
mapping whose keys are exactly the constraints in `L` — a model
constraint not in `L` is absent — and each constraint in `L` maps to the
same dual value the no-argument `get_duals()` returns for it. -/
theorem C9_get_duals_cons_to_load (allCons l : List ℕ) (full : ℕ → ℚ)
    (h : ∀ c ∈ l, c ∈ allCons) :
    (∀ c : ℕ,
      (List.lookup c (load_duals allCons full (some l))).isSome ↔ c ∈ l)
    ∧ ∀ c ∈ l,
        List.lookup c (load_duals allCons full (some l)) = some (full c)
        ∧ List.lookup c (load_duals allCons full (some l)) =
            List.lookup c (load_duals allCons full none) := by
  refine ⟨?_, ?_⟩
  · intro c
    by_cases hc : c ∈ l
    · simp [load_duals, lookup_map_pair full l c hc, hc]
    · simp [load_duals, lookup_map_pair_none full l c hc, hc]
  · intro c hc
    have h1 := lookup_map_pair full l c hc
    have h2 := lookup_map_pair full allCons c (h c hc)
    simp only [load_duals]
    exact ⟨h1, h1.trans h2.symm⟩

/-- Witness for C9 in the shape of `test_duals`: the model has two
constraints with dual value `1/2` each, and only the first is loaded;
the second is then absent from the returned mapping. -/
theorem C9_get_duals_cons_to_load_witness :
    (∀ c ∈ [1], c ∈ [1, 2]) ∧
    ((∀ c : ℕ,
      (List.lookup c (load_duals [1, 2] (fun _ => 1/2) (some [1]))).isSome
        ↔ c ∈ [1])
    ∧ ∀ c ∈ [1],
        List.lookup c (load_duals [1, 2] (fun _ => 1/2) (some [1])) =
          some ((fun _ : ℕ => (1 : ℚ)/2) c)
        ∧ List.lookup c (load_duals [1, 2] (fun _ => 1/2) (some [1])) =
            List.lookup c (load_duals [1, 2] (fun _ => 1/2) none)) :=
  ⟨by decide, C9_get_duals_cons_to_load [1, 2] [1] (fun _ => 1/2) (by decide)⟩

/-- C10: solving the feasible constraints-only model of
`test_no_objective` returns optimal termination with a feasible point
loaded, `best_feasible_objective` and `best_objective_bound` both `None`,
and every constraint dual `0`; the zero duals are genuine shadow prices
because perturbing either constraint level leaves the (objective-free)
problem solvable, so its value never changes. -/
theorem C10_no_objective (a1 a2 b1 b2 : ℚ) (h : a1 ≠ a2) :
    (solve_no_objective a1 a2 b1 b2).results.termination_condition =
        TerminationCondition.optimal
    ∧ feasEquality a1 a2 b1 b2 (solve_no_objective a1 a2 b1 b2).xval
        (solve_no_objective a1 a2 b1 b2).yval
    ∧ (solve_no_objective a1 a2 b1 b2).results.best_feasible_objective = none
    ∧ (solve_no_objective a1 a2 b1 b2).results.best_objective_bound = none
    ∧ (solve_no_objective a1 a2 b1 b2).duals = (0, 0)
    ∧ ∀ e1 e2 : ℚ, ∃ x y : ℚ, feasEquality a1 a2 (b1 + e1) (b2 + e2) x y := by
  refine ⟨rfl, ⟨rfl, ystar_on_second_line a1 a2 b1 b2 h⟩, rfl, rfl, rfl, ?_⟩
  intro e1 e2
  exact ⟨xstar a1 a2 (b1 + e1) (b2 + e2), ystar a1 a2 (b1 + e1) (b2 + e2),
    rfl, ystar_on_second_line a1 a2 (b1 + e1) (b2 + e2) h⟩

/-- Witness for C10 at the test's first parameter tuple
`(a1, a2, b1, b2) = (1, -1, 2, 1)`. -/
theorem C10_no_objective_witness :
    (1 : ℚ) ≠ -1 ∧
    ((solve_no_objective 1 (-1) 2 1).results.termination_condition =
        TerminationCondition.optimal
    ∧ feasEquality 1 (-1) 2 1 (solve_no_objective 1 (-1) 2 1).xval
        (solve_no_objective 1 (-1) 2 1).yval
    ∧ (solve_no_objective 1 (-1) 2 1).results.best_feasible_objective = none
    ∧ (solve_no_objective 1 (-1) 2 1).results.best_objective_bound = none
    ∧ (solve_no_objective 1 (-1) 2 1).duals = (0, 0)
    ∧ ∀ e1 e2 : ℚ, ∃ x y : ℚ, feasEquality 1 (-1) (2 + e1) (1 + e2) x y) :=
  ⟨by decide, C10_no_objective 1 (-1) 2 1 (by decide)⟩

/-- C8: on the model of `test_add_remove_cons` (`c1 : y >= -x + 1`,
`c2 : y >= x + 2`), solving gives the optimum `(-1/2, 3/2)` of `c1`,`c2`
with the asserted duals; adding `c3 : y >= x + 3` and re-solving gives
the new optimum `(-1, 2)` determined by `c1` and `c3`, where `c2` is
slack and its dual is `0`; deleting `c3` restores exactly the constraint
state, solution and duals from before `c3` was added. -/
theorem C8_add_remove_constraint_round_trip :
    (solveLineList modelC8 = some (-1/2, 3/2)
      ∧ feasLines modelC8 (-1/2) (3/2)
      ∧ (∀ x y : ℚ, feasLines modelC8 x y → 3/2 ≤ y)
      ∧ get_duals_lines modelC8 lineC1 = -(1 + (-1 : ℚ) / (1 - -1))
      ∧ get_duals_lines modelC8 lineC2 = (-1 : ℚ) / (1 - -1))
    ∧ (add_constraint modelC8 lineC3 = [lineC1, lineC2, lineC3]
      ∧ solveLineList (add_constraint modelC8 lineC3) = some (-1, 2)
      ∧ feasLines (add_constraint modelC8 lineC3) (-1) 2
      ∧ (∀ x y : ℚ, feasLines (add_constraint modelC8 lineC3) x y → 2 ≤ y)
      ∧ lineC2.a * (-1) + lineC2.b < 2
      ∧ get_duals_lines (add_constraint modelC8 lineC3) lineC1 =
          -(1 + (-1 : ℚ) / (1 - -1))
      ∧ get_duals_lines (add_constraint modelC8 lineC3) lineC2 = 0
      ∧ get_duals_lines (add_constraint modelC8 lineC3) lineC3 =
          (-1 : ℚ) / (1 - -1))
    ∧ (remove_constraint (add_constraint modelC8 lineC3) lineC3 = modelC8
      ∧ solveLineList (remove_constraint (add_constraint modelC8 lineC3) lineC3)
          = solveLineList modelC8
      ∧ ∀ c : Line,
          get_duals_lines (remove_constraint (add_constraint modelC8 lineC3)
            lineC3) c = get_duals_lines modelC8 c) := by
  have hrt : remove_constraint (add_constraint modelC8 lineC3) lineC3 =
      modelC8 := by decide
  refine ⟨⟨?_, ?_, ?_, ?_, ?_⟩, ⟨by decide, ?_, ?_, ?_, ?_, ?_, ?_, ?_⟩,
    hrt, by rw [hrt], fun c => by rw [hrt]⟩
  · norm_num [solveLineList, candidates, modelC8, lineC1, lineC2, vertex,
      xstar, ystar, feasLinesB, argminY, List.flatMap, List.filterMap,
      List.filter, List.all]
  · intro l hl
    simp only [modelC8, List.mem_cons, List.not_mem_nil, or_false] at hl
    rcases hl with h | h <;> (subst h; norm_num [lineC1, lineC2])
  · intro x y hf
    have h1 := hf lineC1 (by simp [modelC8])
    have h2 := hf lineC2 (by simp [modelC8])
    simp only [lineC1, lineC2] at h1 h2
    linarith
  · norm_num [get_duals_lines, solveLineList, candidates, modelC8, lineC1,
      lineC2, vertex, xstar, ystar, feasLinesB, argminY, activeAt, dual_at,
      List.flatMap, List.filterMap, List.filter, List.all]
  · norm_num [get_duals_lines, solveLineList, candidates, modelC8, lineC1,
      lineC2, vertex, xstar, ystar, feasLinesB, argminY, activeAt, dual_at,
      List.flatMap, List.filterMap, List.filter, List.all]
  · norm_num [solveLineList, candidates, add_constraint, modelC8, lineC1,
      lineC2, lineC3, vertex, xstar, ystar, feasLinesB, argminY,
      List.flatMap, List.filterMap, List.filter, List.all]
  · intro l hl
    simp only [add_constraint, modelC8, List.cons_append, List.nil_append,
      List.mem_cons, List.not_mem_nil, or_false] at hl
    rcases hl with h | h | h <;> (subst h; norm_num [lineC1, lineC2, lineC3])
  · intro x y hf
    have h1 := hf lineC1 (by simp [modelC8, add_constraint])
    have h3 := hf lineC3 (by simp [modelC8, add_constraint])
    simp only [lineC1, lineC3] at h1 h3
    linarith
  · norm_num [lineC2]
  · norm_num [get_duals_lines, solveLineList, candidates, add_constraint,
      modelC8, lineC1, lineC2, lineC3, vertex, xstar, ystar, feasLinesB,
      argminY, activeAt, dual_at, List.flatMap, List.filterMap, List.filter,
      List.all]
  · norm_num [get_duals_lines, solveLineList, candidates, add_constraint,
      modelC8, lineC1, lineC2, lineC3, vertex, xstar, ystar, feasLinesB,
      argminY, activeAt, dual_at, List.flatMap, List.filterMap, List.filter,
      List.all]
  · norm_num [get_duals_lines, solveLineList, candidates, add_constraint,
      modelC8, lineC1, lineC2, lineC3, vertex, xstar, ystar, feasLinesB,
      argminY, activeAt, dual_at, List.flatMap, List.filterMap, List.filter,
      List.all]
